import Mathlib

/-!
Verification of `src/Benchmark.py` (OhtelloAI benchmark orchestrator).

The Python program is embedded shallowly:

* A log file is modelled as `Option (List String)`: `none` means the file
  does not exist, `some lines` is its content split into lines
  (`str.splitlines`).
* Python's substring test `pat in s` is `strContains s pat`,
  `s.startswith pat` is `strStartsWith s pat`, `s.lower()` is `strLower s`
  (the strings involved are ASCII).
* `run_one_game` is embedded as a pure function from the game's observable
  environment (`GameEnv`: did `wait_server_ready` succeed, did
  `wait_end_in_log` succeed, the content of the "my" player's log at
  classification time, whether each player exited within `wait_short`'s
  bound and with which code) to a `RunResult` that records both the result
  row the Python function returns and its side-effect trace (which
  processes were spawned, how many times `kill_tree` ran on each).
  Configuration fields that the Python code copies verbatim from its
  arguments into the row (`host`, `port`, `my_mode`, `my_seconds`,
  `monte_seconds`, `server_timeout`) are omitted from the embedding.
* The process-wide `threading.Event` stop flag is set at most once and only
  read by a lane at two points per iteration (the `while` condition and the
  check at the top of `run_one_game`).  A lane's view of it is therefore a
  monotone boolean sequence over its own reads, modelled by a threshold
  `t? : Option Nat`: the `k`-th read returns `true` iff `t? = some t` with
  `t ≤ k`.  `worker_loop` threads a read counter (`clock`) through its
  iterations: the loop condition reads at `clock`, `run_one_game`'s entry
  check reads at `clock + 1`.
* `worker_loop`'s `while` loop is structurally embedded with fuel
  `games`: the loop runs at most `games` iterations whenever
  `1 ≤ parallel` (the game counter starts at `worker + 1 ≥ 1` and strictly
  increases by `parallel` while bounded by `games`), so this fuel is exact
  for every instance the theorems below quantify over.
* `main` merges the per-lane result lists and sorts them by game index;
  sorting does not change per-index row counts, so the merge is embedded
  as plain concatenation (`mergedResults`).
-/

/-- `containsAux pat l` decides whether `pat` occurs as a contiguous
sublist of `l` (Python's `pat in s` on the character lists). -/
def containsAux (pat : List Char) : List Char → Bool
  | [] => pat.isPrefixOf []
  | c :: rest => pat.isPrefixOf (c :: rest) || containsAux pat rest

/-- Python `pat in s` (substring containment). -/
def strContains (s pat : String) : Bool :=
  containsAux pat.toList s.toList

/-- Python `s.startswith pat`. -/
def strStartsWith (s pat : String) : Bool :=
  pat.toList.isPrefixOf s.toList

/-- Python `s.lower()` (ASCII). -/
def strLower (s : String) : String :=
  String.mk (s.toList.map Char.toLower)

/-- The classification that `parse_winner_from_log` applies to one line
that starts with `"END "` (Benchmark.py lines 71-78): the `" win."`,
`" lose."` and case-insensitive `"draw"` substring rules, in that order,
defaulting to `"unknown"`. -/
def classifyLine (line : String) : String :=
  if strContains line " win." then "my"
  else if strContains line " lose." then "monte"
  else if strContains (strLower line) "draw" then "draw"
  else "unknown"

/-- `parse_winner_from_log` (Benchmark.py lines 65-79).  A missing file
gives `"no_log"`; otherwise the fold starts from `"no_end"` and
overwrites the accumulator at every line starting with `"END "`, so the
last such line decides.  The code's result strings correspond to the
spec's `WinnerOutcome` as: `"my"` = Player, `"monte"` = Opponent,
`"draw"` = Draw, `"unknown"` = Unknown, `"no_end"` = NoEnd,
`"no_log"` = NoLog, `"server_no_port"` = ServerNoPort,
`"stopped"` = Stopped. -/
def parse_winner_from_log : Option (List String) → String
  | none => "no_log"
  | some lines =>
    lines.foldl
      (fun w line => if strStartsWith line "END " then classifyLine line else w)
      "no_end"

/-- `wait_end_in_log` (Benchmark.py lines 90-99).  The poll loop is
embedded as the finite list of file states observed before the deadline
(`none` = `FileNotFoundError`, tolerated).  The Python code returns `True`
as soon as one read of the whole file text contains `"END "` as a
substring (`"END " in path.read_text()`), and `False` once the deadline
passes; since the pattern contains no newline, a substring of the joined
text is a substring of one of the lines. -/
def wait_end_in_log (polls : List (Option (List String))) : Bool :=
  polls.any (fun c => (c.getD []).any (fun l => strContains l "END "))

/-- The observable environment of one `run_one_game` call: the outcomes of
its waits and the player log it classifies. -/
structure GameEnv where
  serverReady : Bool
  gotEnd : Bool
  myLog : Option (List String)
  myExitsInTime : Bool
  myExit : Int
  monteExitsInTime : Bool
  monteExit : Int
deriving DecidableEq

/-- The result row `run_one_game` returns, together with its side-effect
trace: which of the three processes were spawned and how many times
`kill_tree` was invoked on each. -/
structure RunResult where
  game : Nat
  worker : Nat
  connect_order : String
  winner : String
  my_exit : Int
  monte_exit : Int
  serverSpawned : Bool
  mySpawned : Bool
  monteSpawned : Bool
  serverKills : Nat
  myKills : Nat
  monteKills : Nat
deriving DecidableEq

/-- `run_one_game` (Benchmark.py lines 101-191), as a function of the game
index, the worker index, the value its entry read of `stop_event.is_set()`
returned (line 115), and the game's environment.  The branches mirror the
source: stopped at entry (row `"stopped"`, exits 130, nothing spawned);
server never ready (row `"server_no_port"`, exits 124, players never
spawned, the server killed once by the `finally` block); no END within the
wall timeout (row `"no_end"`, exits 124, both players killed once, the
server killed once by `finally`); success (server killed at line 170 and
again by `finally`, each player killed only if `wait_short` times out, in
which case its exit code is the 124 sentinel, and the winner parsed from
the my-player log). -/
def run_one_game (game worker : Nat) (stopped : Bool) (env : GameEnv) : RunResult :=
  let order := if game % 2 == 1 then "my-first" else "monte-first"
  if stopped then
    { game := game, worker := worker, connect_order := order,
      winner := "stopped", my_exit := 130, monte_exit := 130,
      serverSpawned := false, mySpawned := false, monteSpawned := false,
      serverKills := 0, myKills := 0, monteKills := 0 }
  else if !env.serverReady then
    { game := game, worker := worker, connect_order := order,
      winner := "server_no_port", my_exit := 124, monte_exit := 124,
      serverSpawned := true, mySpawned := false, monteSpawned := false,
      serverKills := 1, myKills := 0, monteKills := 0 }
  else if !env.gotEnd then
    { game := game, worker := worker, connect_order := order,
      winner := "no_end", my_exit := 124, monte_exit := 124,
      serverSpawned := true, mySpawned := true, monteSpawned := true,
      serverKills := 1, myKills := 1, monteKills := 1 }
  else
    { game := game, worker := worker, connect_order := order,
      winner := parse_winner_from_log env.myLog,
      my_exit := if env.myExitsInTime then env.myExit else 124,
      monte_exit := if env.monteExitsInTime then env.monteExit else 124,
      serverSpawned := true, mySpawned := true, monteSpawned := true,
      serverKills := 2,
      myKills := if env.myExitsInTime then 0 else 1,
      monteKills := if env.monteExitsInTime then 0 else 1 }

/-- The lane's `k`-th read of the set-once stop event: `t? = some t` means
the event becomes set just before the `t`-th read. -/
def isSet : Option Nat → Nat → Bool
  | none, _ => false
  | some t, k => decide (t ≤ k)

/-- The `while` loop of `worker_loop` (Benchmark.py lines 200-216), with
fuel (see the header comment: fuel `games` is exact for `1 ≤ parallel`).
`env` gives the environment of each game index; `clock` counts this lane's
reads of the stop event. -/
def worker_loop_go (games parallel worker : Nat) (env : Nat → GameEnv)
    (t? : Option Nat) : Nat → Nat → Nat → List RunResult
  | 0, _, _ => []
  | fuel + 1, game, clock =>
    if game ≤ games ∧ isSet t? clock = false then
      run_one_game game worker (isSet t? (clock + 1)) (env game) ::
        worker_loop_go games parallel worker env t? fuel (game + parallel) (clock + 2)
    else []

/-- `worker_loop` (Benchmark.py lines 193-217): start at game
`worker + 1`, advance by `parallel`. -/
def worker_loop (games parallel worker : Nat) (env : Nat → GameEnv)
    (t? : Option Nat) : List RunResult :=
  worker_loop_go games parallel worker env t? games (worker + 1) 0

/-- Concatenation of the per-lane result lists (the merge in `main`,
Benchmark.py lines 250-278; the subsequent sort by game index does not
change per-index counts). -/
def joinAll : List (List RunResult) → List RunResult
  | [] => []
  | l :: ls => l ++ joinAll ls

/-- The merged result list of a run of `main` (Benchmark.py lines
250-287): lane `w` runs `worker_loop` with its own environment `env w`
and its own view `stopOf w` of the stop event. -/
def mergedResults (games parallel : Nat) (env : Nat → Nat → GameEnv)
    (stopOf : Nat → Option Nat) : List RunResult :=
  joinAll ((List.range parallel).map
    (fun w => worker_loop games parallel w (env w) (stopOf w)))

/-- A fixed benign game environment used to instantiate theorems at
concrete inputs: server ready, END observed, both players exit in time
with code 0, player log absent. -/
def envDefault : GameEnv :=
  { serverReady := true, gotEnd := true, myLog := none,
    myExitsInTime := true, myExit := 0, monteExitsInTime := true, monteExit := 0 }

/-!
Model of `kill_tree` (Benchmark.py lines 44-63).  The function calls into
the operating system: `os.getpgid(proc.pid)` (wrapped in `try`/`except`,
so a lookup failure silently yields `pgid = None`), then twice
`_kill(sig)`, which sends the signal to the whole process group via
`os.killpg(pgid, sig)` when `pgid` was obtained, or to `proc` via
`Popen.send_signal(sig)` otherwise; every send is wrapped in
`try`/`except`, so `ESRCH` and the like are swallowed.

The POSIX process state is a finite table of `(pid, Proc)` entries:

* an entry is present for every process that has not been reaped
  (zombies — exited but not waited for — remain in the table with
  `alive = false` and keep their pid and pgid occupied);
* reaping removes the entry, after which the pid may be reused by an
  unrelated process (`spawnId` is a ghost field recording which spawn the
  entry belongs to, so that "unrelated" is expressible; `kill_tree`
  itself never reads it, exactly as the Python code only has the pid);
* `os.getpgid pid` returns the pgid of the table entry at `pid`
  (zombies included), raising — here: `none` — when there is none;
* delivering a signal to group `g` reaches exactly the alive members of
  `g` (`killpgSet`), raises `ESRCH` (swallowed) when the group is empty;
  `SIGKILL` makes every member dead (`applyKillpg`), while `SIGTERM` is
  modelled as leaving the state unchanged (worst case: a process may
  ignore it; `kill_tree` follows it with `SIGKILL` anyway);
* `Popen.send_signal` on a handle whose process was reaped is a no-op
  (Python checks `returncode`), which is the only way the `pgid = None`
  fallback branch is reached in this model.
-/

/-- One OS process: ghost spawn identity, process group, alive or zombie. -/
structure Proc where
  spawnId : Nat
  pgid : Nat
  alive : Bool
deriving DecidableEq

/-- The OS process table: pid ↦ process, absent once reaped. -/
abbrev ProcTable := List (Nat × Proc)

/-- What a `subprocess.Popen` handle exposes: the pid, the ghost identity
of the spawn it came from, and whether the process was reaped. -/
structure Handle where
  pid : Nat
  spawnId : Nat
  reaped : Bool
deriving DecidableEq

/-- `os.getpgid`-style lookup of the current occupant of a pid. -/
def lookupPid : ProcTable → Nat → Option Proc
  | [], _ => none
  | e :: tbl, pid => if e.1 == pid then some e.2 else lookupPid tbl pid

/-- The pids that actually receive a signal sent to group `g`: the alive
members of the group (a zombie cannot receive a signal). -/
def killpgSet : ProcTable → Nat → List Nat
  | [], _ => []
  | e :: tbl, g =>
    if e.2.pgid == g && e.2.alive then e.1 :: killpgSet tbl g else killpgSet tbl g

/-- The effect of `SIGKILL` on group `g`: every member becomes dead. -/
def applyKillpg : ProcTable → Nat → ProcTable
  | [], _ => []
  | e :: tbl, g =>
    (if e.2.pgid == g then (e.1, Proc.mk e.2.spawnId e.2.pgid false) else e) ::
      applyKillpg tbl g

/-- Whether no process (alive or zombie) occupies group `g`, in which case
`os.killpg` raises `ESRCH`. -/
def groupEmpty : ProcTable → Nat → Bool
  | [], _ => true
  | e :: tbl, g => if e.2.pgid == g then false else groupEmpty tbl g

/-- `_kill sig` inside `kill_tree`: signal the group when a pgid was
obtained (`ESRCH` swallowed when the group has no member at all), no-op
otherwise (`send_signal` on a reaped handle).  `lethal` distinguishes
`SIGKILL` from `SIGTERM`.  Returns the new table and the signalled pids. -/
def trySignal (tbl : ProcTable) (pg : Option Nat) (lethal : Bool) :
    ProcTable × List Nat :=
  match pg with
  | none => (tbl, [])
  | some g =>
    if groupEmpty tbl g then (tbl, [])
    else ((if lethal then applyKillpg tbl g else tbl), killpgSet tbl g)

/-- The outcome of one `kill_tree` call: the OS state afterwards and the
trace of pids that received a signal. -/
structure KillResult where
  table : ProcTable
  signaled : List Nat

/-- `kill_tree` (Benchmark.py lines 44-63): obtain the pgid of the
handle's pid once (exceptions swallowed), send `SIGTERM` to the group,
wait the grace interval, send `SIGKILL` to the group; every step is
non-faulting by construction of the `try`/`except` wrappers. -/
def kill_tree (tbl : ProcTable) (h : Handle) : KillResult :=
  let pg := (lookupPid tbl h.pid).map (fun p => p.pgid)
  let r1 := trySignal tbl pg false
  let r2 := trySignal r1.1 pg true
  { table := r2.1, signaled := r1.2 ++ r2.2 }

/-!  Helper lemmas. -/

/-- A prefix occurrence is in particular a substring occurrence. -/
theorem containsAux_of_isPrefixOf (pat l : List Char) (h : pat.isPrefixOf l = true) :
    containsAux pat l = true := by
  cases l with
  | nil => simpa [containsAux] using h
  | cons c rest => simp [containsAux, h]

/-- `s.startswith pat` implies `pat in s`. -/
theorem strContains_of_strStartsWith (s pat : String) (h : strStartsWith s pat = true) :
    strContains s pat = true :=
  containsAux_of_isPrefixOf pat.toList s.toList h

/-- The accumulator fold of `parse_winner_from_log`: if no line starts with
`"END "` the fold returns its start value, otherwise it returns the
classification of the last line starting with `"END "`. -/
theorem foldl_winner_eq :
    ∀ (ls : List String) (w : String),
      ((((ls.filter fun x => strStartsWith x "END ").getLast? = none) →
          ls.foldl (fun acc line => if strStartsWith line "END " then classifyLine line else acc) w
            = w) ∧
        ∀ l, (ls.filter fun x => strStartsWith x "END ").getLast? = some l →
          ls.foldl (fun acc line => if strStartsWith line "END " then classifyLine line else acc) w
            = classifyLine l)
  | [], w => by simp
  | a :: ls, w => by
    by_cases ha : strStartsWith a "END " = true
    · rw [List.foldl_cons]
      rw [List.filter_cons_of_pos (by simpa using ha)]
      simp only [if_pos ha]
      rcases hfl : ls.filter fun x => strStartsWith x "END " with _ | ⟨b, t⟩
      · constructor
        · intro hnone
          simp at hnone
        · intro l hl
          simp only [List.getLast?_singleton, Option.some.injEq] at hl
          cases hl
          exact (foldl_winner_eq ls (classifyLine _)).1 (by rw [hfl]; rfl)
      · constructor
        · intro hnone
          rw [List.getLast?_cons_cons] at hnone
          rw [List.getLast?_eq_none_iff] at hnone
          exact absurd hnone (by simp)
        · intro l hl
          rw [List.getLast?_cons_cons] at hl
          exact (foldl_winner_eq ls (classifyLine a)).2 l (by rw [hfl]; exact hl)
    · rw [List.foldl_cons]
      rw [List.filter_cons_of_neg (by simpa using ha)]
      simp only [if_neg ha]
      exact foldl_winner_eq ls w

/-- Claim C4: `parse_winner_from_log` maps a missing log to `"no_log"`
(NoLog), a log with no line starting with `"END "` to `"no_end"` (NoEnd),
the terminal line `"END p1 win."` to `"my"` (Player), `"END p1 lose."` to
`"monte"` (Opponent), `"END draw"` in any letter case of the draw word to
`"draw"` (Draw), an unrecognized terminal line to `"unknown"` (Unknown);
and the win, lose, draw rules are applied in that order (a line matching
several rules is classified by the earliest). -/
theorem classify_outcome_cases :
    parse_winner_from_log none = "no_log" ∧
    (∀ ls : List String, (∀ x ∈ ls, strStartsWith x "END " = false) →
        parse_winner_from_log (some ls) = "no_end") ∧
    parse_winner_from_log (some ["END p1 win."]) = "my" ∧
    parse_winner_from_log (some ["END p1 lose."]) = "monte" ∧
    parse_winner_from_log (some ["END draw"]) = "draw" ∧
    parse_winner_from_log (some ["END DRAW"]) = "draw" ∧
    parse_winner_from_log (some ["END Draw"]) = "draw" ∧
    parse_winner_from_log (some ["END mystery"]) = "unknown" ∧
    parse_winner_from_log (some ["END win. lose. draw"]) = "my" ∧
    parse_winner_from_log (some ["END lose. draw"]) = "monte" := by
  refine ⟨rfl, ?_, by decide, by decide, by decide, by decide, by decide,
    by decide, by decide, by decide⟩
  intro ls h
  have hfil : (ls.filter fun x => strStartsWith x "END ") = [] :=
    List.filter_eq_nil_iff.mpr (fun x hx => by simp [h x hx])
  exact (foldl_winner_eq ls "no_end").1 (by rw [hfil]; rfl)

/-- Witness for C4: a log whose lines never start with `"END "` is
classified `"no_end"`. -/
theorem classify_outcome_cases_witness :
    parse_winner_from_log (some ["hello", "world END x"]) = "no_end" :=
  classify_outcome_cases.2.1 ["hello", "world END x"] (by decide)

/-- Claim C10: the win and lose rules of `parse_winner_from_log` match
only the exact substrings `" win."` and `" lose."` (leading space and
trailing period, case-sensitive), while the draw rule matches `"draw"`
case-insensitively anywhere in the terminal line; so `"END p1 wins"`,
`"END WIN."`, `"END awin."` and `"END p1 win"` classify as `"unknown"`
(Unknown, not Player), while the exact tokens classify as `"my"` /
`"monte"` and an embedded `"DRAW"` classifies as `"draw"`. -/
theorem token_matching_rules :
    parse_winner_from_log (some ["END p1 wins"]) = "unknown" ∧
    parse_winner_from_log (some ["END WIN."]) = "unknown" ∧
    parse_winner_from_log (some ["END awin."]) = "unknown" ∧
    parse_winner_from_log (some ["END p1 win"]) = "unknown" ∧
    parse_winner_from_log (some ["END a win."]) = "my" ∧
    parse_winner_from_log (some ["END a lose."]) = "monte" ∧
    parse_winner_from_log (some ["END xyzDRAWzyx"]) = "draw" ∧
    parse_winner_from_log (some ["END xdrawy"]) = "draw" := by
  decide

/-- Claim C6: for a log with two or more lines starting with `"END "`,
the classification equals that of a log containing only the last such
line; earlier terminal lines have no effect. -/
theorem last_terminal_line_decides (ls : List String) (l : String)
    (h2 : 2 ≤ (ls.filter fun x => strStartsWith x "END ").length)
    (hl : (ls.filter fun x => strStartsWith x "END ").getLast? = some l) :
    parse_winner_from_log (some ls) = parse_winner_from_log (some [l]) := by
  have hmem : l ∈ ls.filter fun x => strStartsWith x "END " := by
    obtain ⟨hne, heq⟩ := List.mem_getLast?_eq_getLast (x := l) hl
    rw [heq]
    exact List.getLast_mem hne
  have hp : strStartsWith l "END " = true := by
    have := (List.mem_filter.mp hmem).2
    simpa using this
  have h1 := (foldl_winner_eq ls "no_end").2 l hl
  show (ls.foldl
      (fun w line => if strStartsWith line "END " then classifyLine line else w) "no_end") =
    ([l].foldl
      (fun w line => if strStartsWith line "END " then classifyLine line else w) "no_end")
  rw [h1, List.foldl_cons, List.foldl_nil, if_pos hp]

/-- Witness for C6: among two terminal lines, the later `"END p1 win."`
decides. -/
theorem last_terminal_line_decides_witness :
    parse_winner_from_log (some ["END p1 lose.", "END p1 win."]) =
      parse_winner_from_log (some ["END p1 win."]) :=
  last_terminal_line_decides ["END p1 lose.", "END p1 win."] "END p1 win."
    (by decide) (by decide)

/-- Counterexample to claim C5 as stated: `wait_end_in_log` is claimed to
return `true` iff a polled file state has a line beginning with `"END "`;
but the code tests `"END " in text`, a plain substring check, so the
content `"xEND y"`, which has no line beginning with `"END "`, already
yields `true`. -/
theorem await_end_counterexample :
    ¬ ((wait_end_in_log [some ["xEND y"]] = true) ↔
        ∃ c ∈ [some ["xEND y"]], ∃ l ∈ c.getD ([] : List String),
          strStartsWith l "END " = true) := by
  decide

/-- Claim C5 (amended): `wait_end_in_log` returns `true` iff some polled
file state before the timeout contains the substring `"END "` anywhere
(not necessarily at the start of a line), tolerating the file not
existing during polling; in particular a line beginning with `"END "`
still suffices. -/
theorem await_end_substring_iff (polls : List (Option (List String))) :
    ((wait_end_in_log polls = true) ↔
      ∃ c ∈ polls, ∃ l ∈ c.getD ([] : List String), strContains l "END " = true) ∧
    ((∃ c ∈ polls, ∃ l ∈ c.getD ([] : List String), strStartsWith l "END " = true) →
      wait_end_in_log polls = true) := by
  constructor
  · simp [wait_end_in_log, List.any_eq_true]
  · rintro ⟨c, hc, l, hl, h⟩
    simp only [wait_end_in_log, List.any_eq_true]
    exact ⟨c, hc, l, hl, strContains_of_strStartsWith l "END " h⟩

/-- Witness for C5 (amended): a poll observing a line that begins with
`"END "` makes `wait_end_in_log` return `true`. -/
theorem await_end_substring_iff_witness :
    wait_end_in_log [none, some ["END p1 win."]] = true :=
  (await_end_substring_iff [none, some ["END p1 win."]]).2 (by decide)

/-- Every branch of `run_one_game` copies the game index into the row. -/
theorem run_one_game_game (game worker : Nat) (stopped : Bool) (env : GameEnv) :
    (run_one_game game worker stopped env).game = game := by
  unfold run_one_game
  cases stopped <;> cases h1 : env.serverReady <;> cases h2 : env.gotEnd <;> simp

/-- Stepping the stride condition over one loop iteration (used with the
head index excluded). -/
theorem stride_cond_step (i game parallel : Nat) (hP : 1 ≤ parallel) (hne : game ≠ i) :
    (game + parallel ≤ i ∧ (i - (game + parallel)) % parallel = 0) ↔
      (game ≤ i ∧ (i - game) % parallel = 0) := by
  constructor
  · rintro ⟨h1, h2⟩
    refine ⟨by omega, ?_⟩
    have he : i - game = (i - (game + parallel)) + parallel := by omega
    rw [he, Nat.add_mod_right, h2]
  · rintro ⟨h1, h2⟩
    have hdvd : parallel ∣ (i - game) := Nat.dvd_iff_mod_eq_zero.mpr h2
    have hge : parallel ≤ i - game := Nat.le_of_dvd (by omega) hdvd
    refine ⟨by omega, ?_⟩
    have he : i - game = (i - (game + parallel)) + parallel := by omega
    rw [he, Nat.add_mod_right] at h2
    exact h2

/-- With the stop event never set, the lane's loop visits the index `i`
exactly once if `i` lies in the lane's residue class within
`[game, games]`, and never otherwise (hypothesis: the fuel covers the
remaining games). -/
theorem countP_worker_loop_go (games parallel worker i : Nat) (env : Nat → GameEnv)
    (hP : 1 ≤ parallel) :
    ∀ (fuel game clock : Nat), games + 1 ≤ fuel + game →
      (worker_loop_go games parallel worker env none fuel game clock).countP
          (fun r => r.game == i) =
        if game ≤ i ∧ i ≤ games ∧ (i - game) % parallel = 0 then 1 else 0
  | 0, game, clock, hfg => by
    rw [worker_loop_go, List.countP_nil,
      if_neg (by omega : ¬ (game ≤ i ∧ i ≤ games ∧ (i - game) % parallel = 0))]
  | fuel + 1, game, clock, hfg => by
    rw [worker_loop_go]
    by_cases hg : game ≤ games
    · rw [if_pos ⟨hg, rfl⟩, List.countP_cons,
        countP_worker_loop_go games parallel worker i env hP fuel (game + parallel)
          (clock + 2) (by omega)]
      by_cases hig : game = i
      · subst hig
        rw [if_neg (fun hc => by omega : ¬ (game + parallel ≤ game ∧ game ≤ games ∧
              (game - (game + parallel)) % parallel = 0))]
        simp [run_one_game_game, hg]
      · have hhead : ((run_one_game game worker (isSet none (clock + 1)) (env game)).game
            == i) = false := by
          simp [run_one_game_game]
          omega
        rw [hhead]
        have hiff : (game + parallel ≤ i ∧ i ≤ games ∧ (i - (game + parallel)) % parallel = 0)
            ↔ (game ≤ i ∧ i ≤ games ∧ (i - game) % parallel = 0) := by
          have hs := stride_cond_step i game parallel hP hig
          constructor
          · rintro ⟨a, b, c⟩
            obtain ⟨x, y⟩ := hs.mp ⟨a, c⟩
            exact ⟨x, b, y⟩
          · rintro ⟨a, b, c⟩
            obtain ⟨x, y⟩ := hs.mpr ⟨a, c⟩
            exact ⟨x, b, y⟩
        rw [if_congr hiff rfl rfl]
        simp
    · rw [if_neg (fun hc => hg hc.1), List.countP_nil,
        if_neg (by omega : ¬ (game ≤ i ∧ i ≤ games ∧ (i - game) % parallel = 0))]

/-- The per-lane instance of `countP_worker_loop_go` at the loop's actual
start state. -/
theorem countP_worker_loop (games parallel worker i : Nat) (env : Nat → GameEnv)
    (hP : 1 ≤ parallel) :
    (worker_loop games parallel worker env none).countP (fun r => r.game == i) =
      if worker + 1 ≤ i ∧ i ≤ games ∧ (i - (worker + 1)) % parallel = 0 then 1 else 0 :=
  countP_worker_loop_go games parallel worker i env hP games (worker + 1) 0 (by omega)

/-- Counting over a concatenation of lists is the sum of the counts. -/
theorem countP_joinAll (p : RunResult → Bool) :
    ∀ L : List (List RunResult),
      (joinAll L).countP p = (L.map (fun l => l.countP p)).sum
  | [] => by simp [joinAll]
  | l :: ls => by
    rw [joinAll, List.countP_append, countP_joinAll p ls, List.map_cons, List.sum_cons]

/-- Summing a function that vanishes on `[0, n)` over `List.range n`. -/
theorem sum_map_range_zero (f : Nat → Nat) :
    ∀ n : Nat, (∀ w, w < n → f w = 0) → ((List.range n).map f).sum = 0
  | 0, _ => rfl
  | n + 1, h => by
    rw [List.range_succ, List.map_append, List.sum_append,
      sum_map_range_zero f n (fun w hw => h w (by omega))]
    simp only [List.map_cons, List.map_nil, List.sum_cons, List.sum_nil]
    rw [h n (by omega)]
    omega

/-- Summing an indicator of a single point `w0 < n` over `List.range n`. -/
theorem sum_map_range_indicator (f : Nat → Nat) :
    ∀ (n w0 : Nat), (∀ w, w < n → f w = if w = w0 then 1 else 0) → w0 < n →
      ((List.range n).map f).sum = 1
  | 0, w0, _, hw => by omega
  | n + 1, w0, h, hw => by
    rw [List.range_succ, List.map_append, List.sum_append]
    simp only [List.map_cons, List.map_nil, List.sum_cons, List.sum_nil]
    by_cases hwn : n = w0
    · rw [sum_map_range_zero f n (fun w hlt => by rw [h w (by omega)]; simp; omega),
        h n (by omega), if_pos hwn]
      omega
    · rw [sum_map_range_indicator f n w0 (fun w hlt => h w (by omega)) (by omega),
        h n (by omega), if_neg hwn]
      omega

/-- For `1 ≤ i`, lane `w < parallel` owns index `i` exactly when `w` is
the residue `(i - 1) % parallel`. -/
theorem lane_owns_iff (i parallel w : Nat) (hP : 1 ≤ parallel) (hi : 1 ≤ i)
    (hw : w < parallel) :
    (w + 1 ≤ i ∧ (i - (w + 1)) % parallel = 0) ↔ w = (i - 1) % parallel := by
  constructor
  · rintro ⟨h1, h2⟩
    obtain ⟨k, hk⟩ := Nat.dvd_iff_mod_eq_zero.mpr h2
    have he : i - 1 = w + parallel * k := by omega
    rw [he, Nat.add_mul_mod_self_left, Nat.mod_eq_of_lt hw]
  · intro hw0
    have hle : (i - 1) % parallel ≤ i - 1 := Nat.mod_le (i - 1) parallel
    have hdm := Nat.div_add_mod (i - 1) parallel
    refine ⟨by omega, ?_⟩
    have he : i - (w + 1) = parallel * ((i - 1) / parallel) := by omega
    rw [he]
    exact Nat.mul_mod_right parallel ((i - 1) / parallel)

/-- Claim C1 (amended: cancellation never observed): in a run where the
stop event is never set, the merged result list has exactly one row per
game index in `[1, games]` and none for any other index — `game` is a
unique key over exactly `{1, …, games}`. -/
theorem merged_indices_exactly_once (games parallel : Nat) (env : Nat → Nat → GameEnv)
    (hP : 1 ≤ parallel) (i : Nat) :
    (mergedResults games parallel env (fun _ => none)).countP (fun r => r.game == i) =
      if 1 ≤ i ∧ i ≤ games then 1 else 0 := by
  unfold mergedResults
  rw [countP_joinAll, List.map_map]
  by_cases hi : 1 ≤ i ∧ i ≤ games
  · rw [if_pos hi]
    refine sum_map_range_indicator _ parallel ((i - 1) % parallel) ?_
      (Nat.mod_lt (i - 1) (by omega))
    intro w hw
    show (worker_loop games parallel w (env w) none).countP (fun r => r.game == i) =
      if w = (i - 1) % parallel then 1 else 0
    rw [countP_worker_loop games parallel w i (env w) hP]
    have hiff : (w + 1 ≤ i ∧ i ≤ games ∧ (i - (w + 1)) % parallel = 0) ↔
        w = (i - 1) % parallel := by
      constructor
      · rintro ⟨a, _, c⟩
        exact (lane_owns_iff i parallel w hP hi.1 hw).mp ⟨a, c⟩
      · intro hme
        obtain ⟨a, c⟩ := (lane_owns_iff i parallel w hP hi.1 hw).mpr hme
        exact ⟨a, hi.2, c⟩
    rw [if_congr hiff rfl rfl]
  · rw [if_neg hi]
    refine sum_map_range_zero _ parallel ?_
    intro w hw
    show (worker_loop games parallel w (env w) none).countP (fun r => r.game == i) = 0
    rw [countP_worker_loop games parallel w i (env w) hP,
      if_neg (by omega : ¬ (w + 1 ≤ i ∧ i ≤ games ∧ (i - (w + 1)) % parallel = 0))]

/-- Witness for C1 (amended): a concrete uncancelled run with two games
on two lanes has exactly one row for game 1. -/
theorem merged_indices_exactly_once_witness :
    1 ≤ 2 ∧
      (mergedResults 2 2 (fun _ _ => envDefault) (fun _ => none)).countP
          (fun r => r.game == 1) =
        if 1 ≤ 1 ∧ 1 ≤ 2 then 1 else 0 :=
  ⟨by decide, merged_indices_exactly_once 2 2 (fun _ _ => envDefault) (by decide) 1⟩

/-- Counterexample to claim C1 as stated ("for every run"): in a run of
one game on one lane where cancellation is observed before the lane's
first boundary check, the merged result list contains no row for game 1
at all — the index set is not `{1}`. -/
theorem merged_run_missing_index :
    ¬ ((mergedResults 1 1 (fun _ _ => envDefault) (fun _ => some 0)).countP
        (fun r => r.game == 1) = 1) := by
  decide

/-- Every row a lane's loop produces has a game index no smaller than the
loop's current index. -/
theorem worker_loop_go_game_ge (games parallel worker : Nat) (env : Nat → GameEnv) :
    ∀ (fuel game clock : Nat) (r : RunResult),
      r ∈ worker_loop_go games parallel worker env none fuel game clock → game ≤ r.game
  | 0, game, clock, r, hr => by rw [worker_loop_go] at hr; cases hr
  | fuel + 1, game, clock, r, hr => by
    rw [worker_loop_go] at hr
    by_cases hg : game ≤ games
    · rw [if_pos ⟨hg, rfl⟩] at hr
      rcases List.mem_cons.mp hr with h | h
      · rw [h, run_one_game_game]
      · have := worker_loop_go_game_ge games parallel worker env fuel (game + parallel)
          (clock + 2) r h
        omega
    · rw [if_neg (fun hc => hg hc.1)] at hr
      cases hr

/-- The game indices a lane's loop produces are strictly increasing. -/
theorem worker_loop_go_sorted (games parallel worker : Nat) (env : Nat → GameEnv)
    (hP : 1 ≤ parallel) :
    ∀ (fuel game clock : Nat),
      ((worker_loop_go games parallel worker env none fuel game clock).map
        (fun r => r.game)).Pairwise (fun a b => a < b)
  | 0, game, clock => by rw [worker_loop_go]; simp
  | fuel + 1, game, clock => by
    rw [worker_loop_go]
    by_cases hg : game ≤ games
    · rw [if_pos ⟨hg, rfl⟩, List.map_cons, List.pairwise_cons]
      refine ⟨?_, worker_loop_go_sorted games parallel worker env hP fuel
        (game + parallel) (clock + 2)⟩
      intro b hb
      obtain ⟨r, hr, hrb⟩ := List.mem_map.mp hb
      have := worker_loop_go_game_ge games parallel worker env fuel (game + parallel)
        (clock + 2) r hr
      rw [run_one_game_game]
      omega
    · rw [if_neg (fun hc => hg hc.1)]
      simp

/-- Membership of an index in the game indices a lane runs when the stop
event is never set. -/
theorem mem_lane_iff (games parallel w i : Nat) (envOf : Nat → GameEnv)
    (hP : 1 ≤ parallel) :
    i ∈ (worker_loop games parallel w envOf none).map (fun r => r.game) ↔
      (w + 1 ≤ i ∧ i ≤ games ∧ (i - (w + 1)) % parallel = 0) := by
  rw [List.mem_map]
  constructor
  · rintro ⟨r, hr, rfl⟩
    have hcount := countP_worker_loop games parallel w r.game envOf hP
    have hpos : 0 < (worker_loop games parallel w envOf none).countP
        (fun x => x.game == r.game) :=
      List.countP_pos_iff.mpr ⟨r, hr, by simp⟩
    rw [hcount] at hpos
    by_contra hc
    rw [if_neg hc] at hpos
    exact absurd hpos (by omega)
  · intro hc
    have hcount := countP_worker_loop games parallel w i envOf hP
    rw [if_pos hc] at hcount
    have hpos : 0 < (worker_loop games parallel w envOf none).countP
        (fun x => x.game == i) := by omega
    obtain ⟨r, hr, hp⟩ := List.countP_pos_iff.mp hpos
    exact ⟨r, hr, by simpa using hp⟩

/-- The residue condition rewritten as "the index sits on the lane's
stride". -/
theorem stride_cond_exists (i w parallel : Nat) :
    (w + 1 ≤ i ∧ (i - (w + 1)) % parallel = 0) ↔ (∃ k, i = w + 1 + k * parallel) := by
  constructor
  · rintro ⟨h1, h2⟩
    obtain ⟨k, hk⟩ := Nat.dvd_iff_mod_eq_zero.mpr h2
    refine ⟨k, ?_⟩
    rw [Nat.mul_comm k parallel]
    omega
  · rintro ⟨k, rfl⟩
    refine ⟨by omega, ?_⟩
    have he : w + 1 + k * parallel - (w + 1) = k * parallel := by omega
    rw [he, Nat.mul_mod_left]

/-- Claim C7: with `1 ≤ parallel` and lane `worker < parallel`, in a run
where cancellation is never observed: (i) the game indices lane `worker`
runs are exactly `{worker+1 + k·parallel} ∩ [1, games]`; (ii) the lane
runs them in strictly increasing order; (iii) every index in `[1, games]`
is run by exactly one lane. -/
theorem stride_assignment (games parallel worker : Nat) (envOf : Nat → Nat → GameEnv)
    (hP : 1 ≤ parallel) (hw : worker < parallel) :
    (∀ i, i ∈ (worker_loop games parallel worker (envOf worker) none).map
          (fun r => r.game) ↔
        ((∃ k, i = worker + 1 + k * parallel) ∧ 1 ≤ i ∧ i ≤ games)) ∧
    ((worker_loop games parallel worker (envOf worker) none).map
        (fun r => r.game)).Pairwise (fun a b => a < b) ∧
    (∀ i, 1 ≤ i → i ≤ games →
      ∃! w, w < parallel ∧
        i ∈ (worker_loop games parallel w (envOf w) none).map (fun r => r.game)) := by
  refine ⟨?_, by
    show ((worker_loop_go games parallel worker (envOf worker) none games
        (worker + 1) 0).map (fun r => r.game)).Pairwise (fun a b => a < b)
    exact worker_loop_go_sorted games parallel worker (envOf worker) hP games
      (worker + 1) 0, ?_⟩
  · intro i
    rw [mem_lane_iff games parallel worker i (envOf worker) hP]
    constructor
    · rintro ⟨a, b, c⟩
      exact ⟨(stride_cond_exists i worker parallel).mp ⟨a, c⟩, by omega, b⟩
    · rintro ⟨hex, h1, h2⟩
      obtain ⟨a, c⟩ := (stride_cond_exists i worker parallel).mpr hex
      exact ⟨a, h2, c⟩
  · intro i hi1 hi2
    have hmod : (i - 1) % parallel < parallel := Nat.mod_lt (i - 1) (by omega)
    refine ⟨(i - 1) % parallel, ⟨hmod, ?_⟩, ?_⟩
    · rw [mem_lane_iff games parallel _ i (envOf _) hP]
      obtain ⟨a, c⟩ := (lane_owns_iff i parallel ((i - 1) % parallel) hP hi1 hmod).mpr rfl
      exact ⟨a, hi2, c⟩
    · rintro w ⟨hwlt, hmem⟩
      rw [mem_lane_iff games parallel w i (envOf w) hP] at hmem
      exact (lane_owns_iff i parallel w hP hi1 hwlt).mp ⟨hmem.1, hmem.2.2⟩

/-- Witness for C7: in the spec's own example `games = 4`, `parallel = 2`,
lane 0 runs game 3 (and an index characterization instance holds). -/
theorem stride_assignment_witness :
    (1 ≤ 2 ∧ 0 < 2) ∧
      (3 ∈ (worker_loop 4 2 0 ((fun _ _ => envDefault) 0) none).map (fun r => r.game) ↔
        ((∃ k, 3 = 0 + 1 + k * 2) ∧ 1 ≤ 3 ∧ 3 ≤ 4)) :=
  ⟨⟨by decide, by decide⟩,
    (stride_assignment 4 2 0 (fun _ _ => envDefault) (by decide) (by decide)).1 3⟩

/-- Once the lane's boundary check observes the stop event, the loop
produces nothing further. -/
theorem worker_loop_go_stop (games parallel worker : Nat) (env : Nat → GameEnv) (t : Nat) :
    ∀ (fuel game clock : Nat), t ≤ clock →
      worker_loop_go games parallel worker env (some t) fuel game clock = []
  | 0, game, clock, ht => by rw [worker_loop_go]
  | fuel + 1, game, clock, ht => by
    rw [worker_loop_go, if_neg]
    rintro ⟨-, hset⟩
    rw [isSet] at hset
    simp [ht] at hset

/-- If the stop event becomes set between the lane's boundary check and
`run_one_game`'s entry check, the lane records exactly the one stopped
row for the current game and then exits its loop. -/
theorem worker_loop_go_stop_at_entry (games parallel worker : Nat) (env : Nat → GameEnv) :
    ∀ (fuel game clock : Nat), game ≤ games → 1 ≤ fuel →
      worker_loop_go games parallel worker env (some (clock + 1)) fuel game clock =
        [run_one_game game worker true (env game)]
  | 0, game, clock, hg, hf => by omega
  | fuel + 1, game, clock, hg, hf => by
    rw [worker_loop_go, if_pos ⟨hg, by rw [isSet]; simp⟩,
      worker_loop_go_stop games parallel worker env (clock + 1) fuel (game + parallel)
        (clock + 2) (by omega)]
    have hset : isSet (some (clock + 1)) (clock + 1) = true := by rw [isSet]; simp
    rw [hset]

/-- Claim C2 (amended): when `run_one_game`'s entry check observes the
stop event, that game alone is recorded with outcome `"stopped"` and both
exit codes equal to the interrupted-exit sentinel 130, and no process is
spawned for it; when the lane's loop-boundary check observes the stop
event, the lane exits at once, so that game and every remaining game of
the lane are not recorded at all; the single-stopped-row case arises
exactly when the event becomes set between the two checks. -/
theorem lane_cancellation_behavior (games parallel worker game clock fuel t : Nat)
    (env : Nat → GameEnv) :
    ((run_one_game game worker true (env game)).winner = "stopped" ∧
      (run_one_game game worker true (env game)).my_exit = 130 ∧
      (run_one_game game worker true (env game)).monte_exit = 130 ∧
      (run_one_game game worker true (env game)).serverSpawned = false ∧
      (run_one_game game worker true (env game)).mySpawned = false ∧
      (run_one_game game worker true (env game)).monteSpawned = false) ∧
    (t ≤ clock →
      worker_loop_go games parallel worker env (some t) fuel game clock = []) ∧
    (game ≤ games → 1 ≤ fuel →
      worker_loop_go games parallel worker env (some (clock + 1)) fuel game clock =
        [run_one_game game worker true (env game)]) :=
  ⟨by simp [run_one_game],
    worker_loop_go_stop games parallel worker env t fuel game clock,
    worker_loop_go_stop_at_entry games parallel worker env fuel game clock⟩

/-- Witness for C2 (amended): with two games on one lane, a stop observed
at the boundary check yields no rows, while a stop first observed at the
entry check yields exactly the stopped row for game 1. -/
theorem lane_cancellation_behavior_witness :
    (worker_loop_go 2 1 0 (fun _ => envDefault) (some 0) 2 1 0 = []) ∧
    (worker_loop_go 2 1 0 (fun _ => envDefault) (some 1) 2 1 0 =
      [run_one_game 1 0 true ((fun _ => envDefault) 1)]) :=
  ⟨(lane_cancellation_behavior 2 1 0 1 0 2 0 (fun _ => envDefault)).2.1 (by decide),
    (lane_cancellation_behavior 2 1 0 1 0 2 0 (fun _ => envDefault)).2.2
      (by decide) (by decide)⟩

/-- Counterexample to claim C2 as stated: one lane owns games 1 and 2
(`games = 2`, `parallel = 1`), cancellation is observed before the lane
starts any game (its very first read of the stop event returns `true`),
yet the lane records nothing at all — in particular neither game 1 nor
game 2 gets a `MatchResult` with outcome `"stopped"`. -/
theorem lane_cancellation_counterexample :
    worker_loop 2 1 0 (fun _ => envDefault) (some 0) = [] ∧
    (worker_loop 2 1 0 (fun _ => envDefault) (some 0)).countP
      (fun r => r.winner == "stopped") = 0 := by
  decide

/-- Claim C3 (amended): for every game in which the server was spawned
(entry stop check returned `false`), server teardown runs at least once
on every exit path; it runs exactly once on the `ServerNoPort` and
`NoEnd` paths and exactly twice (idempotently) on the success path; the
two player process groups are force-terminated exactly once each on the
`NoEnd` path, while on the success path a player is force-terminated
exactly once if it fails to exit within the bounded wait and not at all
if it exits by itself. -/
theorem teardown_per_path (game worker : Nat) (env : GameEnv) :
    (run_one_game game worker false env).serverSpawned = true ∧
    1 ≤ (run_one_game game worker false env).serverKills ∧
    (env.serverReady = false →
      (run_one_game game worker false env).serverKills = 1 ∧
      (run_one_game game worker false env).mySpawned = false ∧
      (run_one_game game worker false env).monteSpawned = false ∧
      (run_one_game game worker false env).myKills = 0 ∧
      (run_one_game game worker false env).monteKills = 0) ∧
    (env.serverReady = true → env.gotEnd = false →
      (run_one_game game worker false env).serverKills = 1 ∧
      (run_one_game game worker false env).myKills = 1 ∧
      (run_one_game game worker false env).monteKills = 1) ∧
    (env.serverReady = true → env.gotEnd = true →
      (run_one_game game worker false env).serverKills = 2 ∧
      (run_one_game game worker false env).myKills
        = (if env.myExitsInTime then 0 else 1) ∧
      (run_one_game game worker false env).monteKills
        = (if env.monteExitsInTime then 0 else 1)) := by
  obtain ⟨sr, ge, ml, met, me, mot, mo⟩ := env
  cases sr <;> cases ge <;> simp [run_one_game]

/-- Witness for C3 (amended): on a concrete success path with both
players exiting by themselves, the server is killed twice and the players
are never force-terminated. -/
theorem teardown_per_path_witness :
    (run_one_game 1 0 false envDefault).serverKills = 2 ∧
    (run_one_game 1 0 false envDefault).myKills = (if envDefault.myExitsInTime then 0 else 1) ∧
    (run_one_game 1 0 false envDefault).monteKills
      = (if envDefault.monteExitsInTime then 0 else 1) :=
  (teardown_per_path 1 0 envDefault).2.2.2.2 rfl rfl

/-- Counterexample to claim C3 as stated ("teardown executes exactly once
per game on every exit path"): on the success path `kill_tree` runs on
the server twice (once after END is observed, once in the `finally`
block), and a player that exits by itself is never torn down at all. -/
theorem teardown_success_twice_counterexample :
    (run_one_game 1 0 false envDefault).serverKills = 2 ∧
    (run_one_game 1 0 false envDefault).myKills = 0 ∧
    ¬ ((run_one_game 1 0 false envDefault).serverKills = 1) := by
  decide

/-- Claim C8: when `wait_server_ready` fails (readiness timeout), the
resulting row has outcome `"server_no_port"` and both exit codes equal the
timeout sentinel 124, the two player processes are never spawned, and the
server is torn down (killed once, by the `finally` block). -/
theorem server_no_port_row (game worker : Nat) (env : GameEnv)
    (h : env.serverReady = false) :
    (run_one_game game worker false env).winner = "server_no_port" ∧
    (run_one_game game worker false env).my_exit = 124 ∧
    (run_one_game game worker false env).monte_exit = 124 ∧
    (run_one_game game worker false env).mySpawned = false ∧
    (run_one_game game worker false env).monteSpawned = false ∧
    (run_one_game game worker false env).serverSpawned = true ∧
    (run_one_game game worker false env).serverKills = 1 := by
  simp [run_one_game, h]

/-- Witness for C8: a concrete game whose server never becomes ready. -/
theorem server_no_port_row_witness :
    (run_one_game 1 0 false (GameEnv.mk false true none true 0 true 0)).winner
        = "server_no_port" ∧
    (run_one_game 1 0 false (GameEnv.mk false true none true 0 true 0)).my_exit = 124 ∧
    (run_one_game 1 0 false (GameEnv.mk false true none true 0 true 0)).monte_exit = 124 ∧
    (run_one_game 1 0 false (GameEnv.mk false true none true 0 true 0)).mySpawned = false ∧
    (run_one_game 1 0 false (GameEnv.mk false true none true 0 true 0)).monteSpawned = false ∧
    (run_one_game 1 0 false (GameEnv.mk false true none true 0 true 0)).serverSpawned = true ∧
    (run_one_game 1 0 false (GameEnv.mk false true none true 0 true 0)).serverKills = 1 :=
  server_no_port_row 1 0 (GameEnv.mk false true none true 0 true 0) rfl

/-- After `SIGKILL` on group `g`, no member of `g` can receive a further
signal. -/
theorem killpgSet_applyKillpg :
    ∀ (tbl : ProcTable) (g : Nat), killpgSet (applyKillpg tbl g) g = []
  | [], g => rfl
  | ⟨q0, p0⟩ :: tbl, g => by
    rw [applyKillpg, killpgSet]
    by_cases hg : (p0.pgid == g) = true
    · rw [if_pos hg]
      rw [if_neg (by simp)]
      exact killpgSet_applyKillpg tbl g
    · rw [if_neg hg]
      rw [if_neg (by simp at hg ⊢; intro h; exact absurd h hg)]
      exact killpgSet_applyKillpg tbl g

/-- `SIGKILL` does not remove processes (they stay as zombies), so the
group stays occupied. -/
theorem groupEmpty_applyKillpg :
    ∀ (tbl : ProcTable) (g : Nat), groupEmpty (applyKillpg tbl g) g = groupEmpty tbl g
  | [], g => rfl
  | ⟨q0, p0⟩ :: tbl, g => by
    rw [applyKillpg, groupEmpty, groupEmpty]
    by_cases hg : (p0.pgid == g) = true
    · rw [if_pos hg]
      simp [hg]
    · rw [if_neg hg]
      simp [hg]
      exact groupEmpty_applyKillpg tbl g

/-- `SIGKILL` on a group is idempotent on the process table. -/
theorem applyKillpg_applyKillpg :
    ∀ (tbl : ProcTable) (g : Nat), applyKillpg (applyKillpg tbl g) g = applyKillpg tbl g
  | [], g => rfl
  | ⟨q0, p0⟩ :: tbl, g => by
    rw [applyKillpg, applyKillpg]
    by_cases hg : (p0.pgid == g) = true
    · rw [if_pos hg]
      rw [if_pos (by simpa using hg)]
      rw [applyKillpg_applyKillpg tbl g]
    · rw [if_neg hg]
      rw [if_neg hg]
      rw [applyKillpg_applyKillpg tbl g]

/-- `os.getpgid` after a `SIGKILL` on group `g`: same entry, made dead if
it was in `g`. -/
theorem lookupPid_applyKillpg :
    ∀ (tbl : ProcTable) (g pid : Nat),
      lookupPid (applyKillpg tbl g) pid =
        (lookupPid tbl pid).map
          (fun p => if p.pgid == g then Proc.mk p.spawnId p.pgid false else p)
  | [], g, pid => rfl
  | ⟨q0, p0⟩ :: tbl, g, pid => by
    rw [applyKillpg, lookupPid]
    by_cases hq : (q0 == pid) = true
    · by_cases hg : (p0.pgid == g) = true
      · rw [if_pos hg]
        rw [lookupPid, if_pos (by simpa using hq), if_pos hq]
        have hg2 : p0.pgid = g := by simpa using hg
        simp [hg2]
      · rw [if_neg hg]
        rw [lookupPid, if_pos hq, if_pos hq]
        have hg2 : ¬ p0.pgid = g := by simpa using hg
        simp [hg2]
    · by_cases hg : (p0.pgid == g) = true
      · rw [if_pos hg]
        simp only [hq]
        rw [if_neg (by simpa using hq), lookupPid, if_neg hq]
        exact lookupPid_applyKillpg tbl g pid
      · rw [if_neg hg]
        rw [if_neg hq, lookupPid, if_neg hq]
        exact lookupPid_applyKillpg tbl g pid

/-- A signalled pid belongs to an alive member of the signalled group. -/
theorem mem_killpgSet :
    ∀ (tbl : ProcTable) (g q : Nat), q ∈ killpgSet tbl g →
      ∃ p : Proc, (q, p) ∈ tbl ∧ p.pgid = g ∧ p.alive = true
  | [], g, q => by intro h; cases h
  | ⟨q0, p0⟩ :: tbl, g, q => by
    intro h
    rw [killpgSet] at h
    by_cases hc : (p0.pgid == g && p0.alive) = true
    · rw [if_pos hc] at h
      have hc2 : p0.pgid = g ∧ p0.alive = true := by simpa using hc
      obtain ⟨hg, ha⟩ := hc2
      rcases List.mem_cons.mp h with h1 | h1
      · subst h1
        exact ⟨p0, List.mem_cons_self _ _, hg, ha⟩
      · obtain ⟨p, hp, hpg, hpa⟩ := mem_killpgSet tbl g q h1
        exact ⟨p, List.mem_cons_of_mem _ hp, hpg, hpa⟩
    · rw [if_neg hc] at h
      obtain ⟨p, hp, hpg, hpa⟩ := mem_killpgSet tbl g q h
      exact ⟨p, List.mem_cons_of_mem _ hp, hpg, hpa⟩

/-- A `SIGTERM` round of `trySignal` never changes the table. -/
theorem trySignal_fst_nonlethal (tbl : ProcTable) (pg : Option Nat) :
    (trySignal tbl pg false).1 = tbl := by
  rcases pg with _ | g
  · rfl
  · rw [trySignal]
    by_cases hge : groupEmpty tbl g = true
    · rw [if_pos hge]
    · rw [if_neg hge]
      rfl

/-- Closed form of one `kill_tree` call: no-op when the pid has no
occupant (reaped, not reused), no-op with no signal when the group is
empty (`ESRCH` swallowed), otherwise the whole group of the pid's current
occupant is signalled twice (`SIGTERM`, then `SIGKILL`) and ends dead. -/
theorem kill_tree_eq (tbl : ProcTable) (h : Handle) :
    kill_tree tbl h =
      match lookupPid tbl h.pid with
      | none => ⟨tbl, []⟩
      | some p =>
        if groupEmpty tbl p.pgid then ⟨tbl, []⟩
        else ⟨applyKillpg tbl p.pgid,
          killpgSet tbl p.pgid ++ killpgSet tbl p.pgid⟩ := by
  rcases hl : lookupPid tbl h.pid with _ | p
  · simp only [kill_tree, hl, Option.map_none']
    rfl
  · simp only [kill_tree, hl, Option.map_some']
    by_cases hge : groupEmpty tbl p.pgid = true
    · simp only [trySignal, if_pos hge]
      rfl
    · simp only [trySignal, if_neg hge]
      simp [hge]

/-- Claim C9 (amended): `kill_tree` is non-faulting and idempotent — a
second invocation on the same handle changes no process state and
delivers no signal, and an invocation on a handle whose process is gone
from the table (exited and reaped, pid not reused) is a complete no-op;
moreover every signal it delivers goes to an alive member of the process
group of the *current occupant* of the handle's pid.  (When that occupant
is an unrelated process that reused the pid, that unrelated group is
signalled — see the counterexample.) -/
theorem kill_tree_idempotent_safe (tbl : ProcTable) (h : Handle) :
    (kill_tree (kill_tree tbl h).table h).table = (kill_tree tbl h).table ∧
    (kill_tree (kill_tree tbl h).table h).signaled = [] ∧
    (lookupPid tbl h.pid = none →
      (kill_tree tbl h).table = tbl ∧ (kill_tree tbl h).signaled = []) ∧
    (∀ q ∈ (kill_tree tbl h).signaled,
      ∃ (p hp : Proc), (q, p) ∈ tbl ∧ p.alive = true ∧
        lookupPid tbl h.pid = some hp ∧ p.pgid = hp.pgid) := by
  rcases Option.eq_none_or_eq_some (lookupPid tbl h.pid) with hl | ⟨p, hl⟩
  · have h1 : kill_tree tbl h = ⟨tbl, []⟩ := by rw [kill_tree_eq tbl h, hl]
    refine ⟨by simp [h1], by simp [h1], fun _ => ⟨by simp [h1], by simp [h1]⟩, ?_⟩
    intro q hq
    rw [h1] at hq
    simp at hq
  · by_cases hge : groupEmpty tbl p.pgid = true
    · have h1 : kill_tree tbl h = ⟨tbl, []⟩ := by
        rw [kill_tree_eq tbl h, hl]
        simp [hge]
      refine ⟨by simp [h1], by simp [h1], fun _ => ⟨by simp [h1], by simp [h1]⟩, ?_⟩
      intro q hq
      rw [h1] at hq
      simp at hq
    · have h1 : kill_tree tbl h =
          ⟨applyKillpg tbl p.pgid, killpgSet tbl p.pgid ++ killpgSet tbl p.pgid⟩ := by
        rw [kill_tree_eq tbl h, hl]
        simp [hge]
      have hlook2 : lookupPid (applyKillpg tbl p.pgid) h.pid =
          some (Proc.mk p.spawnId p.pgid false) := by
        rw [lookupPid_applyKillpg, hl]
        simp
      have h2 : kill_tree (applyKillpg tbl p.pgid) h = ⟨applyKillpg tbl p.pgid, []⟩ := by
        rw [kill_tree_eq _ h, hlook2]
        simp [groupEmpty_applyKillpg, hge, killpgSet_applyKillpg, applyKillpg_applyKillpg]
      refine ⟨by simp [h1, h2], by simp [h1, h2], ?_, ?_⟩
      · intro habs
        rw [habs] at hl
        exact Option.noConfusion hl
      · intro q hq
        rw [h1] at hq
        have hq2 : q ∈ killpgSet tbl p.pgid := by
          rcases List.mem_append.mp hq with hx | hx
          exacts [hx, hx]
        obtain ⟨pq, hmem, hpg, hal⟩ := mem_killpgSet tbl p.pgid q hq2
        exact ⟨pq, p, hmem, hal, hl, hpg⟩

/-- Witness for C9 (amended): a reaped handle with an unused pid is a
no-op, and in a live two-member group the second member receives the
signal as a member of the same group as the handle's process. -/
theorem kill_tree_idempotent_safe_witness :
    ((kill_tree ([] : ProcTable) (Handle.mk 3 1 true)).table = [] ∧
      (kill_tree ([] : ProcTable) (Handle.mk 3 1 true)).signaled = []) ∧
    (∃ (p hp : Proc), (4, p) ∈ [(3, Proc.mk 1 3 true), (4, Proc.mk 2 3 true)] ∧
      p.alive = true ∧
      lookupPid [(3, Proc.mk 1 3 true), (4, Proc.mk 2 3 true)] (Handle.mk 3 1 false).pid
        = some hp ∧
      p.pgid = hp.pgid) :=
  ⟨(kill_tree_idempotent_safe [] (Handle.mk 3 1 true)).2.2.1 rfl,
    (kill_tree_idempotent_safe [(3, Proc.mk 1 3 true), (4, Proc.mk 2 3 true)]
      (Handle.mk 3 1 false)).2.2.2 4 (by decide)⟩

/-- Counterexample to claim C9 as stated: `kill_tree` recomputes the pgid
from the raw pid on every call (`os.getpgid(proc.pid)`), so on a handle
whose process was reaped and whose pid 5 was reused by an unrelated
process (different spawn identity 99, group 7), it signals — and kills —
that unrelated process. -/
theorem kill_tree_pid_reuse_counterexample :
    (Handle.mk 5 1 true).spawnId = 1 ∧
    lookupPid [(5, Proc.mk 99 7 true)] (Handle.mk 5 1 true).pid = some (Proc.mk 99 7 true) ∧
    ¬ ((Proc.mk 99 7 true).spawnId = 1) ∧
    5 ∈ (kill_tree [(5, Proc.mk 99 7 true)] (Handle.mk 5 1 true)).signaled := by
  decide
